import Mathlib

/-!
# Verification of the VertiPaq decode pipeline (`src/vertipaq.js`)

A shallow embedding, in Lean 4, of the decoding core of the
semantic-model-explorer repository: the Xpress8 decompressor, the ABF file
slicing, the SQLite record parser, the IDF (RLE + bit-packed) decoder, the
Huffman string decoder, the dictionary reader, the column-schema builder and
the table-extraction facade.

Modelling conventions, applied uniformly:

* Byte buffers (`Uint8Array`) are `List Nat`, one element per byte.
* Indexed reads `buf[i]` on a typed array yield `undefined` out of range; at
  every place where the JavaScript source then coerces the value with a
  bitwise operator (`& | >> <<`), `undefined` coerces to `0`, so such reads
  are modelled as `List.getD _ _ 0`.  The one place where an out-of-range
  read flows into `+` (producing `NaN`) is modelled with `Option` explicitly
  (see `xp8ReadMatch`), and the accumulating read of `parseRecord` is
  modelled with an explicit bounds test producing `SqlVal.nan`.
* `DataView.getXxx` reads throw a `RangeError` out of range; functions built
  on them return `Option`/`Except`, `none`/`.error` meaning "threw".
* JavaScript numbers are modelled exactly (ℕ/ℤ/ℚ).  IEEE-754 rounding of
  values above 2^53 is not modelled; no claim below depends on such values.
* JavaScript strings are sequences of UTF-16 code units, modelled as
  `List Nat`.
* The 32-bit semantics of JavaScript shift operators (shift count taken
  mod 32, result wrapped to Int32) is modelled exactly by `jsShl32`; this
  detail is load-bearing for several results below.
-/

namespace VertiPaq

/-! ## JavaScript primitives -/

/-- `buf[i]` on a `Uint8Array`, in a context where the result is consumed by
a bitwise operator (so `undefined` coerces to `0`). -/
def byteAt (buf : List Nat) (i : Nat) : Nat := buf.getD i 0

/-- The UTF-16 code units of an ASCII/BMP Lean string literal (used to write
concrete JavaScript strings in examples and theorems). -/
def strUnits (s : String) : List Nat := s.toList.map Char.toNat

/-- ECMAScript `ToUint32`. -/
def toUint32 (x : Int) : Nat := (x % (2 ^ 32 : Nat)).toNat

/-- ECMAScript `ToInt32`. -/
def toInt32 (x : Int) : Int :=
  let u := toUint32 x
  if u < 2 ^ 31 then (u : Int) else (u : Int) - 2 ^ 32

/-- JavaScript `a << b` on numbers: both operands reduced to 32 bits, shift
count taken mod 32, result an Int32.  `1 << 32 = 1` — the wrap that breaks
`parseRecord` sign extension and the bit-pack mask at `bitWidth = 32`. -/
def jsShl32 (a b : Int) : Int := toInt32 ((toUint32 a <<< (toUint32 b % 32) : Nat) : Int)

/-- `DataView.getUint32(off, true)` when the surrounding code has already
guaranteed `off + 4 ≤ buf.length` (no throw possible). -/
def readU32le (buf : List Nat) (off : Nat) : Nat :=
  byteAt buf off + 256 * byteAt buf (off + 1) + 65536 * byteAt buf (off + 2) +
    16777216 * byteAt buf (off + 3)

/-- `DataView.getUint32(off, true)`: throws (`none`) out of range. -/
def readU32le? (buf : List Nat) (off : Nat) : Option Nat :=
  if off + 4 ≤ buf.length then some (readU32le buf off) else none

/-- `DataView.getBigUint64(off, true)` (converted with `Number(...)`):
throws (`none`) out of range. -/
def readU64le? (buf : List Nat) (off : Nat) : Option Nat :=
  if off + 8 ≤ buf.length then
    some (readU32le buf off + 4294967296 * readU32le buf (off + 4))
  else none

/-- `buf.slice(a, b)` / `buf.subarray(a, b)` for non-negative in-range use:
the bytes `[off, off+len)` of `buf` (clamped at the end of the buffer, as
JavaScript clamps). -/
def extract (buf : List Nat) (off len : Nat) : List Nat := (buf.drop off).take len

/-- Index normalisation of `Array.prototype.slice`: negative indices count
from the end, and both ends are clamped into `[0, len]`. -/
def jsSliceIdx (len : Nat) (i : Int) : Nat :=
  if i < 0 then (len + i).toNat else min i.toNat len

/-- Full `buf.slice(s, e)` with JavaScript index semantics. -/
def jsSlice (buf : List Nat) (s e : Int) : List Nat :=
  (buf.take (jsSliceIdx buf.length e)).drop (jsSliceIdx buf.length s)

/-! ## Xpress8 decompressor (`_decompressXpress8Block`,
`decompressXpress8Chunked`) -/

/-- Read from the output buffer at a possibly negative position
(`out[copyFrom]`): out-of-range reads yield `undefined`, which the
`Uint8Array` store coerces to `0`. -/
def outAt (out : List Nat) (i : Int) : Nat :=
  if i < 0 then 0 else out.getD i.toNat 0

/-- The match-copy loop of `_decompressXpress8Block`:
`for (j = 0; j < matchLen && di < uncompSize; j++) out[di++] = out[copyFrom++]`. -/
def xp8Copy (uncomp : Nat) : Nat → Nat → Int → List Nat → Nat × List Nat
  | 0, di, _, out => (di, out)
  | j + 1, di, cf, out =>
    if di < uncomp then
      xp8Copy uncomp j (di + 1) (cf + 1) (out.set di (outAt out cf))
    else (di, out)

/-- Outcome of reading the match length in `_decompressXpress8Block`:
`brk si` when the JavaScript code executed `break` (leaving the source
index at `si`), `cont si len?` otherwise.  `len? = none` models the `NaN`
produced when `src[si]` lies beyond the real buffer although `si < srcEnd`
(the subsequent copy loop then runs zero times, since `j < NaN` is
false). -/
inductive Xp8MatchRes where
  | brk (si : Nat)
  | cont (si : Nat) (len? : Option Nat)
  deriving DecidableEq

/-- Reading the match length of `_decompressXpress8Block` after the two
header bytes (entered with the source index already past `b0, b1`). -/
def xp8ReadMatch (src : List Nat) (srcEnd si : Nat) (b1 : Nat) : Xp8MatchRes :=
  let len := (b1 &&& 0x07) + 3
  if len = 10 then
    if srcEnd ≤ si then .brk si
    else
      match src.get? si with
      | none => .cont (si + 1) none
      | some b =>
        let len := b + 10
        if len = 265 then
          if srcEnd ≤ si + 2 then .brk (si + 1)
          else .cont (si + 3) (some (byteAt src (si + 1) ||| (byteAt src (si + 2) <<< 8)))
        else .cont (si + 1) (some len)
  else .cont si (some len)

/-- The 8-bit flag loop of `_decompressXpress8Block`.  `bits` counts the
remaining flag bits, `bit` is the current bit index into `flags`.  Returns
the updated `(si, di, out)`; a `break` in the source simply ends the loop
early. -/
def xp8Bits (src : List Nat) (srcEnd uncomp flags : Nat) :
    Nat → Nat → Nat → Nat → List Nat → Nat × Nat × List Nat
  | 0, _, si, di, out => (si, di, out)
  | bits + 1, bit, si, di, out =>
    if si < srcEnd ∧ di < uncomp then
      if flags &&& (1 <<< bit) ≠ 0 then
        -- match: two header bytes, then an optional length extension
        if srcEnd ≤ si + 1 then (si, di, out)
        else
          let b0 := byteAt src si
          let b1 := byteAt src (si + 1)
          match xp8ReadMatch src srcEnd (si + 2) b1 with
          | .brk si' => (si', di, out)
          | .cont si' len? =>
            let matchOffset := ((b1 &&& 0xF8) <<< 5) ||| b0 ||| 1
            let (di', out') :=
              xp8Copy uncomp (len?.getD 0) di ((di : Int) - matchOffset) out
            xp8Bits src srcEnd uncomp flags bits (bit + 1) si' di' out'
      else
        -- literal byte
        xp8Bits src srcEnd uncomp flags bits (bit + 1) (si + 1) (di + 1)
          (out.set di (byteAt src si))
    else (si, di, out)

theorem xp8Copy_di_le (uncomp : Nat) :
    ∀ j di cf out, di ≤ (xp8Copy uncomp j di cf out).1 := by
  intro j
  induction j with
  | zero => intro di cf out; simp [xp8Copy]
  | succ j ih =>
    intro di cf out
    simp only [xp8Copy]
    split
    · exact le_trans (Nat.le_succ di) (ih _ _ _)
    · exact le_refl _

/-- Source index held by a match-read outcome. -/
def Xp8MatchRes.siOf : Xp8MatchRes → Nat
  | .brk s => s
  | .cont s _ => s

theorem xp8ReadMatch_si_le (src : List Nat) (srcEnd si b1 : Nat) :
    si ≤ (xp8ReadMatch src srcEnd si b1).siOf := by
  simp only [xp8ReadMatch]
  split
  · split
    · simp [Xp8MatchRes.siOf]
    · cases src.get? si with
      | none => simp [Xp8MatchRes.siOf]
      | some b =>
        simp only
        split
        · split <;> simp [Xp8MatchRes.siOf]
        · simp [Xp8MatchRes.siOf]
  · simp [Xp8MatchRes.siOf]

theorem xp8Bits_si_le (src : List Nat) (srcEnd uncomp flags : Nat) :
    ∀ bits bit si di out, si ≤ (xp8Bits src srcEnd uncomp flags bits bit si di out).1 := by
  intro bits
  induction bits with
  | zero => intro bit si di out; simp [xp8Bits]
  | succ bits ih =>
    intro bit si di out
    simp only [xp8Bits]
    split
    · split
      · split
        · exact le_refl _
        · have h2 := xp8ReadMatch_si_le src srcEnd (si + 2) (byteAt src (si + 1))
          cases hm : xp8ReadMatch src srcEnd (si + 2) (byteAt src (si + 1)) with
          | brk si' =>
            rw [hm] at h2
            simp only [Xp8MatchRes.siOf] at h2
            simp only []
            omega
          | cont si' len? =>
            rw [hm] at h2
            simp only [Xp8MatchRes.siOf] at h2
            simp only
            exact le_trans (by omega) (ih _ _ _ _)
      · exact le_trans (Nat.le_succ si) (ih _ _ _ _)
    · exact le_refl _

/-- The outer `while (si < srcEnd && di < uncompSize)` loop of
`_decompressXpress8Block`. -/
def xp8Outer (src : List Nat) (srcEnd uncomp : Nat) (si di : Nat) (out : List Nat) :
    List Nat :=
  if h : si < srcEnd ∧ di < uncomp then
    xp8Outer src srcEnd uncomp
      (xp8Bits src srcEnd uncomp (byteAt src si) 8 0 (si + 1) di out).1
      (xp8Bits src srcEnd uncomp (byteAt src si) 8 0 (si + 1) di out).2.1
      (xp8Bits src srcEnd uncomp (byteAt src si) 8 0 (si + 1) di out).2.2
  else out
termination_by srcEnd - si
decreasing_by
  have h1 : si + 1 ≤ (xp8Bits src srcEnd uncomp (byteAt src si) 8 0 (si + 1) di out).1 :=
    xp8Bits_si_le _ _ _ _ _ _ _ _ _
  omega

/-- `_decompressXpress8Block(src, srcOffset, compSize, uncompSize)`:
LZ77-style block decoding into a zero-initialised buffer of `uncompSize`
bytes. -/
def _decompressXpress8Block (src : List Nat) (srcOffset compSize uncompSize : Nat) :
    List Nat :=
  xp8Outer src (srcOffset + compSize) uncompSize srcOffset 0
    (List.replicate uncompSize 0)

/-- The chunk loop of `decompressXpress8Chunked`, returning the list of
decoded chunks (the JavaScript `chunks` array). -/
def xp8ChunkLoop (buf : List Nat) (offset : Nat) : List (List Nat) :=
  if h : offset + 8 ≤ buf.length then
    let uncompSize := readU32le buf offset
    let compSize := readU32le buf (offset + 4)
    if h2 : compSize = 0 ∨ offset + 8 + compSize > buf.length then []
    else
      let chunk :=
        if compSize = uncompSize then extract buf (offset + 8) compSize
        else _decompressXpress8Block buf (offset + 8) compSize uncompSize
      chunk :: xp8ChunkLoop buf (offset + 8 + compSize)
  else []
termination_by buf.length - offset
decreasing_by omega

/-- `decompressXpress8Chunked(buf)`: concatenation of the decoded chunks. -/
def decompressXpress8Chunked (buf : List Nat) : List Nat :=
  (xp8ChunkLoop buf 0).flatten

/-! ### Xpress8: stored-raw chunk identity (claim C1/C9 infrastructure) -/

/-- The four little-endian bytes of a `u32`. -/
def u32leBytes (n : Nat) : List Nat :=
  [n % 256, n / 256 % 256, n / 65536 % 256, n / 16777216 % 256]

/-- Serialisation of a stored-raw chunk of the chunked Xpress8 format:
`uncompSize = compSize = d.length` followed by the raw data. -/
def serializeRawChunk (d : List Nat) : List Nat :=
  u32leBytes d.length ++ u32leBytes d.length ++ d

theorem byteAt_append_right (a b : List Nat) (i : Nat) :
    byteAt (a ++ b) (a.length + i) = byteAt b i := by
  simp only [byteAt, List.getD]
  rw [List.get?_append_right (by omega)]
  simp

theorem readU32le_append (a b : List Nat) (off : Nat) :
    readU32le (a ++ b) (a.length + off) = readU32le b off := by
  simp only [readU32le, Nat.add_assoc, byteAt_append_right]

theorem readU32le_u32leBytes (n : Nat) (rest : List Nat) (h : n < 2 ^ 32) :
    readU32le (u32leBytes n ++ rest) 0 = n := by
  simp only [readU32le, u32leBytes, byteAt, List.cons_append, List.getD_cons_zero,
    List.getD_cons_succ]
  omega

theorem xp8ChunkLoop_raw (chunks : List (List Nat))
    (h : ∀ d ∈ chunks, 0 < d.length ∧ d.length < 2 ^ 32) :
    ∀ a : List Nat,
      xp8ChunkLoop (a ++ chunks.flatMap serializeRawChunk) a.length = chunks := by
  induction chunks with
  | nil =>
    intro a
    rw [xp8ChunkLoop]
    simp
  | cons d cs ih =>
    intro a
    obtain ⟨hd0, hd32⟩ := h d (List.mem_cons_self d cs)
    have hlen : (serializeRawChunk d).length = 8 + d.length := by
      simp [serializeRawChunk, u32leBytes]
      omega
    have hbuf :
        a ++ (d :: cs).flatMap serializeRawChunk =
          a ++ (u32leBytes d.length ++ (u32leBytes d.length ++ (d ++ cs.flatMap serializeRawChunk))) := by
      simp [serializeRawChunk, List.flatMap_cons, List.append_assoc]
    have hlentot :
        (a ++ (d :: cs).flatMap serializeRawChunk).length =
          a.length + 8 + d.length + (cs.flatMap serializeRawChunk).length := by
      simp [List.flatMap_cons, hlen]
      omega
    rw [xp8ChunkLoop]
    have hread1 :
        readU32le (a ++ (d :: cs).flatMap serializeRawChunk) a.length = d.length := by
      rw [hbuf]
      have := readU32le_append a
        (u32leBytes d.length ++ (u32leBytes d.length ++ (d ++ cs.flatMap serializeRawChunk))) 0
      simp only [Nat.add_zero] at this
      rw [this]
      exact readU32le_u32leBytes d.length _ hd32
    have hread2 :
        readU32le (a ++ (d :: cs).flatMap serializeRawChunk) (a.length + 4) = d.length := by
      rw [hbuf]
      have h4 : a.length + 4 = (a ++ u32leBytes d.length).length + 0 := by
        simp [u32leBytes]
      rw [show a ++ (u32leBytes d.length ++ (u32leBytes d.length ++ (d ++ cs.flatMap serializeRawChunk))) =
            (a ++ u32leBytes d.length) ++ (u32leBytes d.length ++ (d ++ cs.flatMap serializeRawChunk))
          from by simp [List.append_assoc], h4, readU32le_append]
      exact readU32le_u32leBytes d.length _ hd32
    rw [dif_pos (by omega)]
    rw [hread1, hread2]
    rw [dif_neg (by omega)]
    rw [if_pos rfl]
    have hextract :
        extract (a ++ (d :: cs).flatMap serializeRawChunk) (a.length + 8) d.length = d := by
      rw [hbuf, extract]
      rw [show a ++ (u32leBytes d.length ++ (u32leBytes d.length ++ (d ++ cs.flatMap serializeRawChunk))) =
            (a ++ u32leBytes d.length ++ u32leBytes d.length) ++ (d ++ cs.flatMap serializeRawChunk)
          from by simp [List.append_assoc]]
      rw [show a.length + 8 = (a ++ u32leBytes d.length ++ u32leBytes d.length).length from by
        simp only [List.length_append, u32leBytes, List.length_cons, List.length_nil]]
      rw [List.drop_left, List.take_left]
    rw [hextract]
    have hstep :
        a ++ (d :: cs).flatMap serializeRawChunk =
          (a ++ serializeRawChunk d) ++ cs.flatMap serializeRawChunk := by
      simp [List.flatMap_cons, List.append_assoc]
    have hoff : a.length + 8 + d.length = (a ++ serializeRawChunk d).length := by
      simp [hlen]
      omega
    rw [hstep, hoff, ih (fun x hx => h x (List.mem_cons_of_mem d hx))]

/-- **C9.**  Stored-raw chunks decode to their payload verbatim: (a) in any
chunked stream, a chunk whose header declares `compSize = uncompSize ≠ 0`
and whose data lies inside the buffer contributes exactly its `compSize`
data bytes to the chunk list; (b) a stream consisting of stored-raw chunks
decompresses to the concatenation of the payloads. -/
theorem xpress8_storedRaw_identity :
    (∀ (buf : List Nat) (offset : Nat), offset + 8 ≤ buf.length →
        readU32le buf (offset + 4) = readU32le buf offset →
        readU32le buf (offset + 4) ≠ 0 →
        offset + 8 + readU32le buf (offset + 4) ≤ buf.length →
        xp8ChunkLoop buf offset =
          extract buf (offset + 8) (readU32le buf (offset + 4)) ::
            xp8ChunkLoop buf (offset + 8 + readU32le buf (offset + 4))) ∧
      ∀ chunks : List (List Nat), (∀ d ∈ chunks, 0 < d.length ∧ d.length < 2 ^ 32) →
        decompressXpress8Chunked (chunks.flatMap serializeRawChunk) = chunks.flatten := by
  constructor
  · intro buf offset hin hraw hnz hdata
    rw [xp8ChunkLoop]
    rw [dif_pos hin, dif_neg (by omega), if_pos hraw]
  · intro chunks h
    unfold decompressXpress8Chunked
    have h0 := xp8ChunkLoop_raw chunks h []
    simp only [List.nil_append, List.length_nil] at h0
    rw [h0]

/-- Witness for C9: a two-chunk stored-raw stream decodes to its payloads. -/
theorem xpress8_storedRaw_identity_witness :
    (∀ d ∈ [[7], [8, 9]], 0 < d.length ∧ d.length < 2 ^ 32) ∧
      decompressXpress8Chunked ([[7], [8, 9]].flatMap serializeRawChunk) = [7, 8, 9] :=
  ⟨by decide, xpress8_storedRaw_identity.2 [[7], [8, 9]] (by decide)⟩

/-! ### Xpress8: block-decoder totality (claim C10) -/

theorem xp8Copy_length (uncomp : Nat) :
    ∀ j di cf out, (xp8Copy uncomp j di cf out).2.length = out.length := by
  intro j
  induction j with
  | zero => intro di cf out; simp [xp8Copy]
  | succ j ih =>
    intro di cf out
    simp only [xp8Copy]
    split
    · rw [ih]; simp
    · rfl

theorem xp8Bits_length (src : List Nat) (srcEnd uncomp flags : Nat) :
    ∀ bits bit si di out,
      (xp8Bits src srcEnd uncomp flags bits bit si di out).2.2.length = out.length := by
  intro bits
  induction bits with
  | zero => intro bit si di out; simp [xp8Bits]
  | succ bits ih =>
    intro bit si di out
    simp only [xp8Bits]
    split
    · split
      · split
        · rfl
        · cases hm : xp8ReadMatch src srcEnd (si + 2) (byteAt src (si + 1)) with
          | brk si' => rfl
          | cont si' len? =>
            simp only
            rw [ih]
            exact xp8Copy_length uncomp _ _ _ _
      · rw [ih]; simp
    · rfl

theorem xp8Outer_length (src : List Nat) (srcEnd uncomp : Nat) :
    ∀ si di out, (xp8Outer src srcEnd uncomp si di out).length = out.length := by
  intro si di out
  induction si, di, out using xp8Outer.induct src srcEnd uncomp with
  | case1 si di out hcond ih =>
    rw [xp8Outer, dif_pos hcond]
    rw [ih]
    exact xp8Bits_length src srcEnd uncomp _ _ _ _ _ _
  | case2 si di out hcond =>
    rw [xp8Outer, dif_neg hcond]

theorem set_replicate_zero : ∀ (n i : Nat), (List.replicate n (0 : Nat)).set i 0 = List.replicate n 0 := by
  intro n
  induction n with
  | zero => intro i; simp
  | succ n ih =>
    intro i
    cases i with
    | zero => simp [List.replicate_succ]
    | succ i => simp [List.replicate_succ, ih]

theorem xp8Bits_oob (src : List Nat) (srcEnd uncomp : Nat) :
    ∀ bits bit si di, src.length ≤ si →
      (xp8Bits src srcEnd uncomp 0 bits bit si di (List.replicate uncomp 0)).2.2 =
          List.replicate uncomp 0 ∧
        src.length ≤ (xp8Bits src srcEnd uncomp 0 bits bit si di (List.replicate uncomp 0)).1 := by
  intro bits
  induction bits with
  | zero => intro bit si di h; simp [xp8Bits, h]
  | succ bits ih =>
    intro bit si di h
    simp only [xp8Bits]
    split
    · rw [if_neg (by simp [Nat.zero_and])]
      have h0 : byteAt src si = 0 := List.getD_eq_default _ _ h
      rw [h0, set_replicate_zero]
      exact ih (bit + 1) (si + 1) (di + 1) (by omega)
    · exact ⟨rfl, h⟩

theorem xp8Outer_oob_aux (src : List Nat) (srcEnd uncomp : Nat) :
    ∀ k si di, srcEnd - si ≤ k → src.length ≤ si →
      xp8Outer src srcEnd uncomp si di (List.replicate uncomp 0) =
        List.replicate uncomp 0 := by
  intro k
  induction k with
  | zero =>
    intro si di hk h
    rw [xp8Outer, dif_neg (by omega)]
  | succ k ih =>
    intro si di hk h
    rw [xp8Outer]
    by_cases hcond : si < srcEnd ∧ di < uncomp
    · rw [dif_pos hcond]
      have h0 : byteAt src si = 0 := List.getD_eq_default _ _ h
      rw [h0]
      obtain ⟨hbout, hbsi⟩ := xp8Bits_oob src srcEnd uncomp 8 0 (si + 1) di (by omega)
      rw [hbout]
      have hsile := xp8Bits_si_le src srcEnd uncomp 0 8 0 (si + 1) di (List.replicate uncomp 0)
      exact ih _ _ (by omega) hbsi
    · rw [dif_neg hcond]

theorem xp8Outer_oob (src : List Nat) (srcEnd uncomp si di : Nat)
    (h : src.length ≤ si) :
    xp8Outer src srcEnd uncomp si di (List.replicate uncomp 0) =
      List.replicate uncomp 0 :=
  xp8Outer_oob_aux src srcEnd uncomp (srcEnd - si) si di (le_refl _) h

/-- **C10.**  The Xpress8 block decoder is total: on every input it returns
a buffer of exactly `uncompSize` bytes; and when the compressed input is
exhausted from the start (source offset beyond the real buffer), every
output position keeps its zero initialisation. -/
theorem xpress8Block_total (src : List Nat) (srcOffset compSize uncompSize : Nat) :
    (_decompressXpress8Block src srcOffset compSize uncompSize).length = uncompSize ∧
      (src.length ≤ srcOffset →
        _decompressXpress8Block src srcOffset compSize uncompSize =
          List.replicate uncompSize 0) := by
  constructor
  · rw [_decompressXpress8Block, xp8Outer_length]
    simp
  · intro h
    rw [_decompressXpress8Block]
    exact xp8Outer_oob src _ _ _ _ h

/-- Witness for C10 at a concrete input: an exhausted 5-byte "compressed
block" claimed to hold 3 output bytes decodes to three zero bytes. -/
theorem xpress8Block_total_witness :
    (_decompressXpress8Block [1, 2] 2 5 3).length = 3 ∧
      _decompressXpress8Block [1, 2] 2 5 3 = List.replicate 3 0 := by
  obtain ⟨h1, h2⟩ := xpress8Block_total [1, 2] 2 5 3
  exact ⟨h1, h2 (by decide)⟩

/-! ## ABF file slicing (`getDataSlice`) -/

/-- Lookup in a JavaScript `Map` modelled as an association list. -/
def mapGet {α β : Type} [DecidableEq α] (m : List (α × β)) (k : α) : Option β :=
  (m.find? (fun p => decide (p.1 = k))).map (·.2)

/-- `Map.set`: update in place when the key exists (keeping its position),
otherwise append. -/
def mapSet {α β : Type} [DecidableEq α] : List (α × β) → α → β → List (α × β)
  | [], k, v => [(k, v)]
  | (k', v') :: rest, k, v =>
    if k' = k then (k, v) :: rest else (k', v') :: mapSet rest k v

/-- One entry of the ABF `fileLog` (the object built in `parseABF`). -/
structure AbfEntry where
  offset : Nat
  size : Nat
  sizeFromLog : Nat
  path : List Nat
  deriving DecidableEq

/-- The structure returned by `parseABF` (the decompressed buffer, the file
log and the two header flags). -/
structure Abf where
  data : List Nat
  fileLog : List (List Nat × AbfEntry)
  errorCode : Bool
  applyCompression : Bool

/-- `getDataSlice(abf, fileName)`: look the name up in the file log (throwing
`FileNotFound` when absent), slice the buffer, trim 4 bytes when `errorCode`
is set, and Xpress8-decompress when `applyCompression` is set. -/
def getDataSlice (abf : Abf) (fileName : List Nat) : Except Unit (List Nat) :=
  match mapGet abf.fileLog fileName with
  | none => .error ()
  | some entry =>
    let slice :=
      if abf.errorCode then
        jsSlice abf.data (entry.offset : Int) ((entry.offset : Int) + entry.size - 4)
      else
        jsSlice abf.data (entry.offset : Int) ((entry.offset : Int) + entry.size)
    .ok (if abf.applyCompression then decompressXpress8Chunked slice else slice)

/-- **C6.**  `getDataSlice` fails exactly when the name is absent from the
file log; for a present entry lying inside the buffer it returns the bytes
`buffer[offset, offset+size)`, with the last 4 bytes removed when
`errorCode` is set, further Xpress8-decompressed when `applyCompression`
is set. -/
theorem getDataSlice_spec (abf : Abf) (fileName : List Nat) :
    (getDataSlice abf fileName = .error () ↔ mapGet abf.fileLog fileName = none) ∧
      (∀ entry, mapGet abf.fileLog fileName = some entry →
        entry.offset + entry.size ≤ abf.data.length →
        (abf.errorCode = true → 4 ≤ entry.offset + entry.size) →
        getDataSlice abf fileName = .ok
          (let core := extract abf.data entry.offset entry.size
           let trimmed := if abf.errorCode then core.take (core.length - 4) else core
           if abf.applyCompression then decompressXpress8Chunked trimmed else trimmed)) := by
  constructor
  · unfold getDataSlice
    cases h : mapGet abf.fileLog fileName with
    | none => simp
    | some entry => simp
  · intro entry h hin herr
    unfold getDataSlice
    rw [h]
    have hcorelen : (extract abf.data entry.offset entry.size).length = entry.size := by
      simp [extract]
      omega
    have hoff : jsSliceIdx abf.data.length (entry.offset : Int) = entry.offset := by
      simp only [jsSliceIdx]
      rw [if_neg (by omega)]
      simp only [Int.toNat_natCast]
      omega
    cases hec : abf.errorCode with
    | true =>
      have h4 : 4 ≤ entry.offset + entry.size := herr hec
      have hend :
          jsSliceIdx abf.data.length ((entry.offset : Int) + entry.size - 4) =
            entry.offset + entry.size - 4 := by
        simp only [jsSliceIdx]
        rw [if_neg (by omega)]
        have ht : ((entry.offset : Int) + entry.size - 4).toNat = entry.offset + entry.size - 4 := by
          omega
        rw [ht]
        omega
      have hlist :
          (abf.data.take (entry.offset + entry.size - 4)).drop entry.offset =
            (extract abf.data entry.offset entry.size).take (entry.size - 4) := by
        rw [List.drop_take]
        simp only [extract, List.take_take]
        congr 1
        omega
      simp only [hec, if_true, jsSlice, hoff, hend, hcorelen, hlist]
    | false =>
      have hend :
          jsSliceIdx abf.data.length ((entry.offset : Int) + entry.size) =
            entry.offset + entry.size := by
        simp only [jsSliceIdx]
        rw [if_neg (by omega)]
        have ht : ((entry.offset : Int) + entry.size).toNat = entry.offset + entry.size := by
          omega
        rw [ht]
        omega
      have hlist :
          (abf.data.take (entry.offset + entry.size)).drop entry.offset =
            extract abf.data entry.offset entry.size := by
        rw [List.drop_take]
        simp only [extract]
        congr 1
        omega
      simp only [hec, if_false, jsSlice, hoff, hend, hlist]
      simp

/-- Witness for C6: a concrete ABF with `errorCode` set trims the last four
bytes of the five-byte slice. -/
theorem getDataSlice_spec_witness :
    mapGet ([(strUnits "f", AbfEntry.mk 1 5 5 (strUnits "p"))]) (strUnits "f") =
        some (AbfEntry.mk 1 5 5 (strUnits "p")) ∧
      getDataSlice
          (Abf.mk [1, 2, 3, 4, 5, 6] [(strUnits "f", AbfEntry.mk 1 5 5 (strUnits "p"))]
            true false) (strUnits "f") = .ok [2] := by
  refine ⟨by decide, ?_⟩
  have h := (getDataSlice_spec
      (Abf.mk [1, 2, 3, 4, 5, 6] [(strUnits "f", AbfEntry.mk 1 5 5 (strUnits "p"))] true false)
      (strUnits "f")).2 (AbfEntry.mk 1 5 5 (strUnits "p")) (by decide) (by decide)
      (fun _ => by decide)
  simpa using h

/-! ## SQLite record format (`readVarint`, `parseRecord`) -/

/-- The fuelled body of `readVarint`: up to 8 continuation bytes, then a
final full byte.  `byteAt` is exact here: an out-of-range read yields
`undefined`, whose `& 0x7f` / `& 0x80` coerce to `0` — the same values the
default `0` produces, and the loop then returns at that byte. -/
def readVarintAux (data : List Nat) (pos : Nat) : Nat → Nat → Nat → Nat × Nat
  | 0, _, result => (result * 256 + byteAt data (pos + 8), 9)
  | k + 1, i, result =>
    let b := byteAt data (pos + i)
    let result := result * 128 + (b &&& 0x7f)
    if b &&& 0x80 = 0 then (result, i + 1)
    else readVarintAux data pos k (i + 1) result

/-- `readVarint(data, pos)`: SQLite varint, returning `(value, bytesUsed)`. -/
def readVarint (data : List Nat) (pos : Nat) : Nat × Nat :=
  readVarintAux data pos 8 0 0

theorem readVarintAux_n_pos (data : List Nat) (pos : Nat) :
    ∀ k i result, i + k ≤ 8 → i + 1 ≤ (readVarintAux data pos k i result).2 := by
  intro k
  induction k with
  | zero => intro i result hik; simp [readVarintAux]; omega
  | succ k ih =>
    intro i result hik
    simp only [readVarintAux]
    split
    · simp
    · exact le_trans (by omega) (ih (i + 1) _ (by omega))

theorem readVarint_n_pos (data : List Nat) (pos : Nat) :
    1 ≤ (readVarint data pos).2 :=
  readVarintAux_n_pos data pos 8 0 0 (by omega)

/-- The serial-type loop of `parseRecord`:
`while (pos < headerLen) { read varint; push }`. -/
def recordTypes (payload : List Nat) (headerLen pos : Nat) : List Nat :=
  if _h : pos < headerLen then
    (readVarint payload pos).1 ::
      recordTypes payload headerLen (pos + (readVarint payload pos).2)
  else []
termination_by headerLen - pos
decreasing_by
  have := readVarint_n_pos payload pos
  omega

/-- A value of a decoded SQLite record.  `real` keeps the raw big-endian
IEEE-754 bytes and `text` the raw UTF-8 bytes: no claim depends on their
numeric / string interpretation, only on identity of the bytes.  `nan`
models the `NaN` JavaScript pushes when an integer field runs past the end
of the payload. -/
inductive SqlVal where
  | null
  | int (v : Int)
  | nan
  | real (bytes : List Nat)
  | blob (bytes : List Nat)
  | text (bytes : List Nat)
  deriving DecidableEq

/-- `const lens = [0, 1, 2, 3, 4, 6, 8]`. -/
def serialLens : List Nat := [0, 1, 2, 3, 4, 6, 8]

/-- Big-endian accumulation `for (i...) val = val * 256 + payload[pos+i]`
(used only after an in-bounds check, so `byteAt` is exact). -/
def readBEbytes (payload : List Nat) (pos len : Nat) : Nat :=
  (List.range len).foldl (fun acc i => acc * 256 + byteAt payload (pos + i)) 0

/-- The value loop of `parseRecord`: one `SqlVal` per serial type, threading
the data offset `dPos`.  `none` models the `RangeError` thrown by the
`DataView` constructor of the serial-type-7 branch.

JavaScript numbers accumulate the 8-byte case in floating point, losing
precision above 2^53; the model is exact (no claim exercises such
values). -/
def recordValues (payload : List Nat) : List Nat → Nat → Option (List SqlVal)
  | [], _ => some []
  | st :: rest, dPos =>
    if st = 0 then (recordValues payload rest dPos).map (SqlVal.null :: ·)
    else if 1 ≤ st ∧ st ≤ 6 then
      let len := serialLens.getD st 0
      let v : SqlVal :=
        if dPos + len ≤ payload.length then
          let u := readBEbytes payload dPos len
          .int (if 0 < len ∧ byteAt payload dPos &&& 0x80 ≠ 0 then
              (u : Int) - jsShl32 1 (len * 8)
            else (u : Int))
        else .nan
      (recordValues payload rest (dPos + len)).map (v :: ·)
    else if st = 7 then
      if dPos + 8 ≤ payload.length then
        (recordValues payload rest (dPos + 8)).map (SqlVal.real (extract payload dPos 8) :: ·)
      else none
    else if st = 8 then (recordValues payload rest dPos).map (SqlVal.int 0 :: ·)
    else if st = 9 then (recordValues payload rest dPos).map (SqlVal.int 1 :: ·)
    else if 12 ≤ st ∧ st % 2 = 0 then
      let len := (st - 12) / 2
      (recordValues payload rest (dPos + len)).map (SqlVal.blob (extract payload dPos len) :: ·)
    else if 13 ≤ st ∧ st % 2 = 1 then
      let len := (st - 13) / 2
      (recordValues payload rest (dPos + len)).map (SqlVal.text (extract payload dPos len) :: ·)
    else (recordValues payload rest dPos).map (SqlVal.null :: ·)

/-- `parseRecord(payload)`: varint header length, serial types, then
values. -/
def parseRecord (payload : List Nat) : Option (List SqlVal) :=
  let r := readVarint payload 0
  recordValues payload (recordTypes payload r.1 r.2) r.1

/-- **C2** (evidence of the code bug).  A serial-type-4 field whose first
byte has the high bit set must decode, per the SQLite record format, to the
big-endian unsigned value minus `2^32` — here `0x80000000 - 2^32 =
-2147483648`.  The code subtracts `1 << 32`, which JavaScript evaluates as
`1` (shift counts are taken mod 32), so it returns `2147483647` instead. -/
theorem parseRecord_serial4_sign_wrap :
    parseRecord [2, 4, 0x80, 0, 0, 0] = some [SqlVal.int 2147483647] ∧
      SqlVal.int 2147483647 ≠ SqlVal.int (2147483648 - 2 ^ 32) := by
  constructor
  · have hv0 : readVarint [2, 4, 0x80, 0, 0, 0] 0 = (2, 1) := by decide
    have hv1 : readVarint [2, 4, 0x80, 0, 0, 0] 1 = (4, 1) := by decide
    have ht : recordTypes [2, 4, 0x80, 0, 0, 0] 2 1 = [4] := by
      rw [recordTypes, dif_pos (by omega), hv1]
      rw [recordTypes]
      simp
    simp only [parseRecord, hv0, ht]
    decide
  · decide

/-! ## IDF metadata and data (`readIdfMeta`, `readIdf`,
`decodeRleBitPackedHybrid`) -/

/-- The four fields `readIdfMeta` extracts from the fixed-layout `.idfmeta`
header.  `bitWidth = (36 - aba5a) + iterator` can be negative, hence `Int`. -/
structure IdfMeta where
  minDataId : Nat
  countBitPacked : Nat
  bitWidth : Int
  rowCount : Nat
  deriving DecidableEq

/-- `readIdfMeta(buf)`.  The source skips the tags and unused fields by
advancing `pos`; the reads that remain sit at fixed offsets: `aba5a` at 36,
`iterator` at 40, `minDataId` at 87, `rowCount` at 107 and
`countBitPacked` at 145 (each computed by summing the skips in the
source).  Any read past the end of the buffer throws (`none`). -/
def readIdfMeta (buf : List Nat) : Option IdfMeta :=
  (readU32le? buf 36).bind fun aba5a =>
  (readU32le? buf 40).bind fun iterator =>
  (readU32le? buf 87).bind fun minDataId =>
  (readU64le? buf 107).bind fun rowCount =>
  (readU64le? buf 145).map fun countBitPacked =>
    IdfMeta.mk minDataId countBitPacked ((36 : Int) - aba5a + iterator) rowCount

/-- One `{dataValue, repeatValue}` entry of the primary RLE segment. -/
structure IdfEntry where
  dataValue : Nat
  repeatValue : Nat
  deriving DecidableEq

/-- Result of `readIdf`: the primary segment and the `u64` sub-segment. -/
structure IdfData where
  primarySegment : List IdfEntry
  subSegment : List Nat
  deriving DecidableEq

/-- The primary-segment read loop of `readIdf`. -/
def readIdfEntries (buf : List Nat) : Nat → Nat → Option (List IdfEntry × Nat)
  | 0, pos => some ([], pos)
  | n + 1, pos =>
    (readU32le? buf pos).bind fun dv =>
    (readU32le? buf (pos + 4)).bind fun rv =>
    (readIdfEntries buf n (pos + 8)).map fun r => (IdfEntry.mk dv rv :: r.1, r.2)

/-- The sub-segment read loop of `readIdf`. -/
def readIdfWords (buf : List Nat) : Nat → Nat → Option (List Nat × Nat)
  | 0, pos => some ([], pos)
  | n + 1, pos =>
    (readU64le? buf pos).bind fun w =>
    (readIdfWords buf n (pos + 8)).map fun r => (w :: r.1, r.2)

/-- `readIdf(buf)`: `u64` primary size, that many entries, `u64` sub size,
that many `u64` words.  A `DataView` read past the end throws (`none`). -/
def readIdf (buf : List Nat) : Option IdfData :=
  (readU64le? buf 0).bind fun primarySize =>
  (readIdfEntries buf primarySize 8).bind fun prim =>
  (readU64le? buf prim.2).bind fun subSize =>
  (readIdfWords buf subSize (prim.2 + 8)).map fun sub =>
    IdfData.mk prim.1 sub.1

/-- The per-word extraction loop of `decodeRleBitPackedHybrid`:
`push(Number(minId + (val & mask))); val >>= bw` — BigInt arithmetic, with
`Int.land` matching BigInt `&` (two's complement) for the possibly negative
mask. -/
def decodeBitPackedWord (minDataId : Nat) (mask : Int) (bitWidth : Nat) :
    Nat → Nat → List Int
  | 0, _ => []
  | j + 1, val =>
    ((minDataId : Int) + Int.land (val : Int) mask) ::
      decodeBitPackedWord minDataId mask bitWidth j (val >>> bitWidth)

/-- Number of iterations of `for (j = 0; j < 64 / bitWidth; j++)`: the
bound is the floating-point quotient, so the loop runs `ceil(64/bitWidth)`
times when `bitWidth` is positive and not at all when negative.  (For
`bitWidth = 0` the JavaScript loop never terminates; modelled as zero
iterations — no claim touches that corner.) -/
def bpIterCount (bitWidth : Int) : Nat :=
  if 0 < bitWidth then (63 + bitWidth.toNat) / bitWidth.toNat else 0

/-- The bit-packed value extraction of `decodeRleBitPackedHybrid`:
the single-zero-word special case, otherwise per-word extraction with
`mask = BigInt((1 << bitWidth) - 1)` — the `<<` is a 32-bit JavaScript
shift, `jsShl32`. -/
def bitPackedValues (meta : IdfMeta) (subSegment : List Nat) : List Int :=
  if 0 < meta.countBitPacked ∧ subSegment ≠ [] then
    if subSegment = [0] then
      List.replicate meta.countBitPacked (meta.minDataId : Int)
    else
      let mask : Int := jsShl32 1 meta.bitWidth - 1
      subSegment.flatMap fun w =>
        decodeBitPackedWord meta.minDataId mask meta.bitWidth.toNat
          (bpIterCount meta.bitWidth) w
  else []

/-- The primary traversal of `decodeRleBitPackedHybrid`: entries whose
`dataValue + bpOffset` equals `0xFFFFFFFF` splice in bit-packed values
(clamped to the available ones), other entries are run-length expanded. -/
def rlePrimary (bitpacked : List Int) : List IdfEntry → Nat → List Int
  | [], _ => []
  | e :: rest, bpOffset =>
    if e.dataValue + bpOffset = 4294967295 then
      ((bitpacked.drop bpOffset).take e.repeatValue) ++
        rlePrimary bitpacked rest (bpOffset + e.repeatValue)
    else
      List.replicate e.repeatValue ((e.dataValue : Nat) : Int) ++
        rlePrimary bitpacked rest bpOffset

/-- `decodeRleBitPackedHybrid(idfData, meta)`. -/
def decodeRleBitPackedHybrid (idf : IdfData) (meta : IdfMeta) : List Int :=
  rlePrimary (bitPackedValues meta idf.subSegment) idf.primarySegment 0

/-- **C1** (evidence of the code bug).  At `bitWidth = 32` the mask
`(1 << 32) - 1` evaluates to `0` in JavaScript (`1 << 32 === 1`), so both
bit-packed values of the word `0x200000001` decode to `minDataId + 0 = 0`
instead of `1` and `2`: the specified scenario yields
`[100,100,100,0,0,200]`, not `[100,100,100,1,2,200]`. -/
theorem decodeRle_bitWidth32_mask_wrap :
    decodeRleBitPackedHybrid
        (IdfData.mk [IdfEntry.mk 100 3, IdfEntry.mk 4294967295 2, IdfEntry.mk 200 1]
          [0x200000001])
        (IdfMeta.mk 0 2 32 6) =
      [100, 100, 100, 0, 0, 200] ∧
      ([100, 100, 100, 0, 0, 200] : List Int) ≠ [100, 100, 100, 1, 2, 200] := by
  exact ⟨by decide, by decide⟩

/-! ## Huffman string decoding (`decompressEncodeArray`,
`buildHuffmanTree`, `decodeHuffmanString`) -/

/-- `decompressEncodeArray(compressed)`: expand the 128 nibble-packed bytes
to 256 codeword lengths (low nibble first). -/
def decompressEncodeArray (compressed : List Nat) : List Nat :=
  (List.range 128).flatMap fun i =>
    [byteAt compressed i &&& 0x0F, (byteAt compressed i >>> 4) &&& 0x0F]

/-- A node of the JavaScript Huffman tree `{left, right, c}`; absent
children are `none`, `c` defaults to `0`. -/
inductive HNode where
  | node (left : Option HNode) (right : Option HNode) (c : Nat)

def HNode.left : HNode → Option HNode
  | .node l _ _ => l

def HNode.right : HNode → Option HNode
  | .node _ r _ => r

def HNode.c : HNode → Nat
  | .node _ _ ch => ch

/-- `{ left: null, right: null, c: 0 }`. -/
def emptyHNode : HNode := .node none none 0

/-- `!node.left && !node.right`. -/
def isLeafH : HNode → Bool
  | .node none none _ => true
  | _ => false

/-- The code-insertion walk of `buildHuffmanTree`: follow the bits of
`code` from bit `len-1` down to bit `0`, creating missing children, and
set `c` on the node reached.  (Codes stay far below 2^31, where the
JavaScript 32-bit `&`/`<<` agree with the `Nat` operations used here.) -/
def insertHuffCode : HNode → Nat → Nat → Nat → HNode
  | .node l r _ch, _, 0, newc => .node l r newc
  | .node l r ch, code, len + 1, newc =>
    if code &&& (1 <<< len) ≠ 0 then
      .node l (some (insertHuffCode (r.getD emptyHNode) code len newc)) ch
    else
      .node (some (insertHuffCode (l.getD emptyHNode) code len newc)) r ch

/-- Stable insertion of one element into a sorted list (the building block
of `jsSort`). -/
def jsSortInsert {α : Type} (le : α → α → Bool) (x : α) : List α → List α
  | [] => [x]
  | y :: ys => if le y x then y :: jsSortInsert le x ys else x :: y :: ys

/-- `Array.prototype.sort(comparator)`: a stable comparison sort (modelled
as insertion sort; ECMAScript requires sort stability, and the comparators
used here are total orders, so every conforming implementation produces
this result). -/
def jsSort {α : Type} (le : α → α → Bool) (l : List α) : List α :=
  l.foldr (jsSortInsert le) []

/-- `buildHuffmanTree(encodeArray)`: collect `(length, byte)` pairs for the
non-zero lengths, sort by `(length, byte)`, then assign canonical codes
(`code <<= (len - lastLen)` on a length increase, `code++` per symbol),
inserting each into the tree.  On the sorted list `lastLen ≤ len` always
holds, so the `Nat` subtraction in the shift is exact. -/
def buildHuffmanTree (encodeArray : List Nat) : HNode :=
  let sorted :=
    jsSort (fun a b => decide (a.1 < b.1 ∨ (a.1 = b.1 ∧ a.2 ≤ b.2)))
      ((List.range 256).filterMap fun i =>
        if byteAt encodeArray i ≠ 0 then some (byteAt encodeArray i, i) else none)
  (sorted.foldl
    (fun (st : HNode × Nat × Nat) p =>
      let code := if st.2.2 ≠ p.1 then st.2.1 <<< (p.1 - st.2.2) else st.2.1
      (insertHuffCode st.1 code p.1 p.2, code + 1, p.1))
    (emptyHNode, 0, 0)).1

/-- The byte position consulted for absolute bit position `bitPos`:
`bytePos = bitPos >> 3`, then the 16-bit-word byte swap
`(bytePos & ~1) + (1 - (bytePos & 1))` (clearing the low bit is written
`2 * (bytePos / 2)`). -/
def huffBytePos (bitPos : Nat) : Nat :=
  2 * ((bitPos >>> 3) / 2) + (1 - (bitPos >>> 3) % 2)

/-- `bitstream[bytePos] & (1 << (7 - bitOffset))`, with the byte-swapped
`bytePos` (out-of-range reads coerce to `0` under `&`). -/
def huffBit (bitstream : List Nat) (bitPos : Nat) : Bool :=
  byteAt bitstream (huffBytePos bitPos) &&& (1 <<< (7 - bitPos % 8)) ≠ 0

/-- The decode loop of `decodeHuffmanString`: at a leaf, emit its byte and
restart from the root before branching; afterwards one final leaf check.
Descending out of a leaf makes `node` `undefined`, and the next dereference
throws — modelled by `none`. -/
def decodeHuffLoop (bits : List Nat) (tree : HNode) (startBit : Nat) :
    Nat → Nat → Option HNode → List Nat → Option (List Nat)
  | 0, _, nodeOpt, acc =>
    match nodeOpt with
    | none => none
    | some nd => if isLeafH nd then some (acc ++ [nd.c]) else some acc
  | n + 1, i, nodeOpt, acc =>
    match nodeOpt with
    | none => none
    | some nd =>
      let acc' := if isLeafH nd then acc ++ [nd.c] else acc
      let cur := if isLeafH nd then tree else nd
      let nxt := if huffBit bits (startBit + i) then cur.right else cur.left
      decodeHuffLoop bits tree startBit n (i + 1) nxt acc'

/-- `decodeHuffmanString(bitstream, tree, startBit, endBit)`: decode the
bits of `[startBit, endBit)`; each emitted byte is an ISO-8859-1 code
point, i.e. directly a UTF-16 code unit of the result string. -/
def decodeHuffmanString (bitstream : List Nat) (tree : HNode) (startBit endBit : Nat) :
    Option (List Nat) :=
  decodeHuffLoop bitstream tree startBit (endBit - startBit) 0 (some tree) []

/-- Nibble-packed lengths giving codeword length 1 to bytes 97 `'a'` and
98 `'b'` (so the canonical code maps `0 ↦ 'a'`, `1 ↦ 'b'`). -/
def huffTwoSymbolEncoded : List Nat :=
  (List.range 128).map fun i => if i = 48 then 16 else if i = 49 then 1 else 0

/-- **C3.**  The byte position consulted for each consumed bit is the
16-bit byte-swapped `(bytePos & ~1) | (1 - (bytePos & 1))` of the claim
(the source's `+` and the claim's `|` coincide), and consequently, for the
two-symbol code `0 ↦ 'a'`, `1 ↦ 'b'`, decoding bit range `[0, 2)` of the
buffer `[0x00, 0x80]` — whose byte 1 physically holds bit 0 — yields
`"ba"`, not `"ab"`. -/
theorem huffman_byteswap_decode :
    (∀ bitPos : Nat, huffBytePos bitPos =
        (2 * ((bitPos >>> 3) / 2)) ||| (1 - (bitPos >>> 3) % 2)) ∧
      decodeHuffmanString [0x00, 0x80]
          (buildHuffmanTree (decompressEncodeArray huffTwoSymbolEncoded)) 0 2 =
        some (strUnits "ba") := by
  constructor
  · intro bitPos
    unfold huffBytePos
    rcases Nat.mod_two_eq_zero_or_one (bitPos >>> 3) with h | h
    · rw [h]
      have hbit := Nat.lor_bit false ((bitPos >>> 3) / 2) true 0
      simpa [Nat.bit_val] using hbit.symm
    · rw [h]
      simp
  · decide

/-! ## Dictionary reader (`readDictionary`, `readNumericDictionary`,
`readStringDictionary`) -/

/-- A decoded column value.  `num` is exact (ℚ); `str` is a sequence of
UTF-16 code units; `f64` keeps the raw little-endian bytes of a
`getFloat64` read (their numeric meaning is not modelled — no claim
evaluates a real dictionary); `date` is the millisecond instant of a
JavaScript `Date`; `dateInvalid`/`nan` model `Date(NaN)`/`NaN` arising
from non-numeric coercions. -/
inductive ColVal where
  | null
  | num (q : ℚ)
  | nan
  | str (units : List Nat)
  | f64 (bytes : List Nat)
  | date (ms : ℚ)
  | dateInvalid
  deriving DecidableEq

/-- `DataView.getInt32(off, true)`: throws (`none`) out of range. -/
def readI32le? (buf : List Nat) (off : Nat) : Option Int :=
  (readU32le? buf off).map fun u =>
    if u < 2 ^ 31 then (u : Int) else (u : Int) - 2 ^ 32

/-- `Number(DataView.getBigInt64(off, true))`: throws (`none`) out of
range.  (`Number` rounds above 2^53; the model is exact — no claim
exercises such values.) -/
def readI64le? (buf : List Nat) (off : Nat) : Option Int :=
  (readU64le? buf off).map fun u =>
    if u < 2 ^ 63 then (u : Int) else (u : Int) - 2 ^ 64

/-- `new Uint8Array(buf.buffer, byteOffset + off, n)`: throws (`none`) when
the range leaves the buffer. -/
def subarray? (buf : List Nat) (off n : Nat) : Option (List Nat) :=
  if off + n ≤ buf.length then some (extract buf off n) else none

/-- The entry loop of `readNumericDictionary`: `elementSize 4` reads
`i32le`, `elementSize 8` with `dictType 0` reads `i64le`, anything else
reads `f64le` (kept as raw bytes).  Entries map `minDataId + i` to the
value. -/
def numericDictEntries (buf : List Nat) (minDataId : Nat) (dictType : Int)
    (elemSize : Nat) : Nat → Nat → Nat → Option (List (Nat × ColVal))
  | 0, _, _ => some []
  | n + 1, pos, i =>
    if elemSize = 4 then
      (readI32le? buf pos).bind fun v =>
      (numericDictEntries buf minDataId dictType elemSize n (pos + 4) (i + 1)).map
        ((minDataId + i, ColVal.num (v : ℚ)) :: ·)
    else if elemSize = 8 ∧ dictType = 0 then
      (readI64le? buf pos).bind fun v =>
      (numericDictEntries buf minDataId dictType elemSize n (pos + 8) (i + 1)).map
        ((minDataId + i, ColVal.num (v : ℚ)) :: ·)
    else
      (subarray? buf pos 8).bind fun bytes =>
      (numericDictEntries buf minDataId dictType elemSize n (pos + 8) (i + 1)).map
        ((minDataId + i, ColVal.f64 bytes) :: ·)

/-- `readNumericDictionary(buf, pos, minDataId, dictType)`. -/
def readNumericDictionary (buf : List Nat) (pos : Nat) (minDataId : Nat)
    (dictType : Int) : Option (List (Nat × ColVal)) :=
  (readU64le? buf pos).bind fun count =>
  (readU32le? buf (pos + 8)).bind fun elemSize =>
  numericDictEntries buf minDataId dictType elemSize count (pos + 12) 0

/-- One parsed string-dictionary page. -/
inductive DictPage where
  | compressed (stringCount storeTotalBits : Nat) (encodeArray : List Nat)
      (buffer : List Nat)
  | uncompressed (stringCount : Nat) (text : List Nat)

/-- `TextDecoder('utf-16le')`: bytes to UTF-16 code units, a lone trailing
byte becoming U+FFFD.  (Replacement of unpaired surrogates is not
modelled — no claim exercises it.) -/
def utf16leUnits : List Nat → List Nat
  | [] => []
  | [_] => [0xFFFD]
  | b0 :: b1 :: rest => (b0 + 256 * b1) :: utf16leUnits rest

/-- The page loop of `readStringDictionary`.  Per page (offsets relative to
the page start `pos`): `page_string_count` is a `u64` at `pos+17`, the
`page_compressed` flag a plain byte at `pos+25`, the payload begins at
`pos+30` after the begin mark.  A compressed page reads `storeTotalBits`
(`pos+30`), `allocation_size` (`pos+38`), 128 bytes of `encodeArray`
(`pos+51`) and `allocation_size` compressed bytes (`pos+187`); an
uncompressed page reads `allocation_size` (`pos+46`) and that many text
bytes (`pos+54`).  The end mark adds 4. -/
def readDictPages (buf : List Nat) : Nat → Nat → Option (List DictPage × Nat)
  | 0, pos => some ([], pos)
  | p + 1, pos =>
    (readU64le? buf (pos + 17)).bind fun stringCount =>
    if byteAt buf (pos + 25) ≠ 0 then
      (readU32le? buf (pos + 30)).bind fun storeTotalBits =>
      (readU64le? buf (pos + 38)).bind fun allocSize =>
      (subarray? buf (pos + 51) 128).bind fun enc =>
      (subarray? buf (pos + 187) allocSize).bind fun cbuf =>
      (readDictPages buf p (pos + 187 + allocSize + 4)).map fun r =>
        (DictPage.compressed stringCount storeTotalBits enc cbuf :: r.1, r.2)
    else
      (readU64le? buf (pos + 46)).bind fun allocSize =>
      (subarray? buf (pos + 54) allocSize).bind fun text =>
      (readDictPages buf p (pos + 54 + allocSize + 4)).map fun r =>
        (DictPage.uncompressed stringCount (utf16leUnits text) :: r.1, r.2)

/-- The handle-read loop of `readStringDictionary`: `(offset, pageId)`
pairs of `u32`s. -/
def readHandles (buf : List Nat) : Nat → Nat → Option (List (Nat × Nat) × Nat)
  | 0, pos => some ([], pos)
  | n + 1, pos =>
    (readU32le? buf pos).bind fun off =>
    (readU32le? buf (pos + 4)).bind fun pid =>
    (readHandles buf n (pos + 8)).map fun r => ((off, pid) :: r.1, r.2)

/-- `page.text.split('\0')` (keeping empty segments, as JavaScript does). -/
def splitOnZeroAux : List Nat → List Nat → List (List Nat)
  | [], cur => [cur.reverse]
  | 0 :: rest, cur => cur.reverse :: splitOnZeroAux rest []
  | u :: rest, cur => splitOnZeroAux rest (u :: cur)

def splitOnZero (l : List Nat) : List (List Nat) := splitOnZeroAux l []

/-- Decoding the bit runs of one compressed page: handle `i` covers
`[offsets[i], offsets[i+1])`, the last run ending at `storeTotalBits`. -/
def decodeHandleRuns (buffer : List Nat) (tree : HNode) (storeTotalBits : Nat) :
    List Nat → Option (List (List Nat))
  | [] => some []
  | o :: rest =>
    let endBit := match rest with
      | [] => storeTotalBits
      | o2 :: _ => o2
    (decodeHuffmanString buffer tree o endBit).bind fun s =>
    (decodeHandleRuns buffer tree storeTotalBits rest).map (s :: ·)

/-- The string-assembly walk over pages: sequential dictionary indices from
`index`, handles grouped by `pageId` in order (`filter` keeps the original
insertion order, exactly as the `handlesByPage` map does). -/
def assemblePages (handles : List (Nat × Nat)) :
    List DictPage → Nat → Nat → Option (List (Nat × ColVal))
  | [], _, _ => some []
  | page :: rest, pageId, index =>
    match page with
    | .compressed _ totalBits enc cbuf =>
      (decodeHandleRuns cbuf (buildHuffmanTree (decompressEncodeArray enc)) totalBits
          ((handles.filter (fun h => h.2 = pageId)).map (·.1))).bind fun strs =>
      (assemblePages handles rest (pageId + 1) (index + strs.length)).map fun tail =>
        (strs.enum.map fun p => (index + p.1, ColVal.str p.2)) ++ tail
    | .uncompressed _ text =>
      let strings := splitOnZero text
      let strings :=
        if strings ≠ [] ∧ strings.getLast? = some [] then strings.dropLast else strings
      (assemblePages handles rest (pageId + 1) (index + strings.length)).map fun tail =>
        (strings.enum.map fun p => (index + p.1, ColVal.str p.2)) ++ tail

/-- `readStringDictionary(buf, pos, minDataId)`: `PageLayout` preamble
(`store_page_count` at `pos+17`), pages from `pos+25`, then the handle
vector (`u64` count, `u32` element size, then the pairs). -/
def readStringDictionary (buf : List Nat) (pos : Nat) (minDataId : Nat) :
    Option (List (Nat × ColVal)) :=
  (readI64le? buf (pos + 17)).bind fun pageCount =>
  (readDictPages buf pageCount.toNat (pos + 25)).bind fun pr =>
  (readU64le? buf pr.2).bind fun handleCount =>
  (readHandles buf handleCount (pr.2 + 12)).bind fun hr =>
  assemblePages hr.1 pr.1 0 minDataId

/-- `readDictionary(buf, minDataId)`: `i32` dictionary type, six skipped
`i32`s of hash information, then the typed payload from offset 28. -/
def readDictionary (buf : List Nat) (minDataId : Nat) :
    Option (List (Nat × ColVal)) :=
  (readI32le? buf 0).bind fun dictType =>
  if dictType = 2 then readStringDictionary buf 28 minDataId
  else if dictType = 0 ∨ dictType = 1 then
    readNumericDictionary buf 28 minDataId dictType
  else some []

/-! ## Value conversion (`convertColumnValue`) -/

/-- `convertColumnValue(value, dataType)`: `null`/`undefined` pass through;
dataType 9 shifts the OLE-date epoch into a `Date`; dataType 10 scales by
10⁻⁴; everything else passes through.  The `switch` compares `dataType`
strictly, so only the number 9/10 (`SqlVal.int`) selects a branch.
Non-numeric values in the 9/10 branches would coerce through `ToNumber`;
that coercion is modelled as NaN (`dateInvalid`/`nan`) — no claim
exercises it.  A `Date` value coerces via `valueOf` to its milliseconds,
which is modelled exactly. -/
def convertColumnValue (value : ColVal) (dataType : SqlVal) : ColVal :=
  match value with
  | .null => .null
  | v =>
    if dataType = .int 9 then
      match v with
      | .num q => .date ((q - 25569) * 86400000)
      | .date ms => .date ((ms - 25569) * 86400000)
      | _ => .dateInvalid
    else if dataType = .int 10 then
      match v with
      | .num q => .num (q / 10000)
      | .date ms => .num (ms / 10000)
      | _ => .nan
    else v

/-- **C8.**  The value converter: dataType 9 maps `v` to the instant
`(v - 25569) * 86400000` ms (so `44562 ↦ 1640995200000`), dataType 10
divides by 10000, every other dataType passes non-null values through
unchanged, and null maps to null. -/
theorem convertColumnValue_spec :
    (∀ q : ℚ, convertColumnValue (.num q) (.int 9) = .date ((q - 25569) * 86400000)) ∧
      convertColumnValue (.num 44562) (.int 9) = .date 1640995200000 ∧
      (∀ q : ℚ, convertColumnValue (.num q) (.int 10) = .num (q / 10000)) ∧
      (∀ v dt, dt ≠ SqlVal.int 9 → dt ≠ SqlVal.int 10 → v ≠ ColVal.null →
        convertColumnValue v dt = v) ∧
      (∀ dt, convertColumnValue .null dt = .null) := by
  refine ⟨fun q => rfl, ?_, fun q => rfl, ?_, fun dt => rfl⟩
  · show ColVal.date ((44562 - 25569) * 86400000) = ColVal.date 1640995200000
    norm_num
  · intro v dt h9 h10 hn
    cases v with
    | null => exact absurd rfl hn
    | num q => simp [convertColumnValue, h9, h10]
    | nan => simp [convertColumnValue, h9, h10]
    | str u => simp [convertColumnValue, h9, h10]
    | f64 b => simp [convertColumnValue, h9, h10]
    | date ms => simp [convertColumnValue, h9, h10]
    | dateInvalid => simp [convertColumnValue, h9, h10]

/-- Witness for C8: the pass-through conjunct at a concrete non-null value
and dataType 6. -/
theorem convertColumnValue_spec_witness :
    (SqlVal.int 6 ≠ SqlVal.int 9) ∧ (SqlVal.int 6 ≠ SqlVal.int 10) ∧
      (ColVal.num 5 ≠ ColVal.null) ∧
      convertColumnValue (.num 5) (.int 6) = .num 5 :=
  ⟨by decide, by decide, by simp, convertColumnValue_spec.2.2.2.1 (.num 5) (.int 6)
    (by decide) (by decide) (by simp)⟩

/-! ## Column schema builder (`buildSchemaFromSQLite`) -/

/-- One row delivered by `getTableRows`: surrogate rowid plus the record
values. -/
structure SqlRow where
  rowid : Nat
  values : List SqlVal
  deriving DecidableEq

/-- `r.values[i]`: an out-of-range index yields `undefined`, modelled as
`null` (the loose `!= null` test, truthiness, and strict comparisons against
numbers treat the two identically everywhere in this code). -/
def jsAt (values : List SqlVal) (i : Nat) : SqlVal := values.getD i .null

/-- Falsiness of the 8 raw big-endian bytes of a float64: `±0` or `NaN`. -/
def f64beIsFalsy (bytes : List Nat) : Bool :=
  (byteAt bytes 0 &&& 0x7F == 0 &&
    (List.range 7).all (fun i => byteAt bytes (i + 1) == 0)) ||
  (byteAt bytes 0 &&& 0x7F == 0x7F && byteAt bytes 1 &&& 0xF0 == 0xF0 &&
    (byteAt bytes 1 &&& 0x0F != 0 ||
      (List.range 6).any (fun i => byteAt bytes (i + 2) != 0)))

/-- JavaScript truthiness of a record value. -/
def jsTruthySql : SqlVal → Bool
  | .null => false
  | .int v => v != 0
  | .nan => false
  | .real bytes => !(f64beIsFalsy bytes)
  | .blob _ => true
  | .text u => u != []

/-- `a || b`. -/
def jsOrSql (a b : SqlVal) : SqlVal := if jsTruthySql a then a else b

/-- Truthiness of a possibly `null`/`undefined` (`none`) value. -/
def optTruthy : Option SqlVal → Bool
  | none => false
  | some v => jsTruthySql v

/-- Lookup of a number-keyed `Map` with a record value as the key
(`Map` keys use SameValueZero, so only a number equal to the rowid
matches). -/
def mapGetNum {β : Type} (m : List (Nat × β)) (k : SqlVal) : Option β :=
  (m.find? (fun p => decide (SqlVal.int p.1 = k))).map (·.2)

/-- `tableName.startsWith(...)` for the five internal-table prefixes.  The
prefixes are ASCII, so prefix-testing the UTF-8 bytes coincides with
prefix-testing the decoded string. -/
def isInternalTableName (u : List Nat) : Bool :=
  (strUnits "LocalDateTable_").isPrefixOf u ||
  (strUnits "DateTableTemplate_").isPrefixOf u ||
  (strUnits "H$").isPrefixOf u ||
  (strUnits "R$").isPrefixOf u ||
  (strUnits "U$").isPrefixOf u

/-- `tables`: rowid → `values[2]` (Name). -/
def tableNameMap (rows : List SqlRow) : List (Nat × SqlVal) :=
  rows.foldl (fun m r => mapSet m r.rowid (jsAt r.values 2)) []

/-- `storageFiles`: rowid → `values[4]` (FileName). -/
def storageFileMap (rows : List SqlRow) : List (Nat × SqlVal) :=
  rows.foldl (fun m r => mapSet m r.rowid (jsAt r.values 4)) []

/-- The `{dictStorageId, cardinality}` record of `colStorageMap`. -/
structure ColStorageInfo where
  dictStorageId : SqlVal
  cardinality : SqlVal
  deriving DecidableEq

/-- `colStorageMap`: rowid → `{values[4], values[11]}`. -/
def colStorageMap (rows : List SqlRow) : List (Nat × ColStorageInfo) :=
  rows.foldl (fun m r =>
    mapSet m r.rowid (ColStorageInfo.mk (jsAt r.values 4) (jsAt r.values 11))) []

/-- The `{baseId, magnitude, isNullable, storageFileId}` record of
`dictStorageMap`. -/
structure DictStorageInfo where
  baseId : SqlVal
  magnitude : SqlVal
  isNullable : SqlVal
  storageFileId : SqlVal
  deriving DecidableEq

/-- `dictStorageMap`: rowid → `{values[5], values[6], values[8],
values[12]}`. -/
def dictStorageMap (rows : List SqlRow) : List (Nat × DictStorageInfo) :=
  rows.foldl (fun m r =>
    mapSet m r.rowid
      (DictStorageInfo.mk (jsAt r.values 5) (jsAt r.values 6) (jsAt r.values 8)
        (jsAt r.values 12))) []

/-- `colPartStorageMap`: `values[1]` (ColumnStorageID) → `values[6]`
(StorageFileID). -/
def colPartStorageMap (rows : List SqlRow) : List (SqlVal × SqlVal) :=
  rows.foldl (fun m r => mapSet m (jsAt r.values 1) (jsAt r.values 6)) []

/-- `attrHierMap`: `values[1]` (ColumnID, skipped when `null`) →
`values[3]`. -/
def attrHierMap (rows : List SqlRow) : List (SqlVal × SqlVal) :=
  rows.foldl (fun m r =>
    if jsAt r.values 1 ≠ .null then mapSet m (jsAt r.values 1) (jsAt r.values 3)
    else m) []

/-- `attrHierStorageMap`: rowid → `values[9]`. -/
def attrHierStorageMap (rows : List SqlRow) : List (Nat × SqlVal) :=
  rows.foldl (fun m r => mapSet m r.rowid (jsAt r.values 9)) []

/-- The per-column descriptor pushed by `buildSchemaFromSQLite`. -/
structure ColumnDescriptor where
  name : SqlVal
  idf : SqlVal
  dictionary : Option SqlVal
  hidx : Option SqlVal
  dataType : SqlVal
  baseId : SqlVal
  magnitude : SqlVal
  isNullable : Bool
  cardinality : SqlVal
  deriving DecidableEq

/-- `result.get(tableName).columns.push(col)` with the
create-if-missing step (keys are the UTF-8 bytes of the table name). -/
def schemaAdd (schema : List (List Nat × List ColumnDescriptor)) (tname : List Nat)
    (c : ColumnDescriptor) : List (List Nat × List ColumnDescriptor) :=
  match schema with
  | [] => [(tname, [c])]
  | (k, cols) :: rest =>
    if k = tname then (k, cols ++ [c]) :: rest
    else (k, cols) :: schemaAdd rest tname c

/-- The body of the `for (const r of columnRows)` loop.  A table name that
is not a string makes `tableName.startsWith` throw a `TypeError`
(`.error`). -/
def buildSchemaStep (tables : List (Nat × SqlVal)) (storageFiles : List (Nat × SqlVal))
    (colStorage : List (Nat × ColStorageInfo)) (dictStorage : List (Nat × DictStorageInfo))
    (colPart : List (SqlVal × SqlVal)) (attrH : List (SqlVal × SqlVal))
    (attrHS : List (Nat × SqlVal))
    (acc : Except Unit (List (List Nat × List ColumnDescriptor))) (r : SqlRow) :
    Except Unit (List (List Nat × List ColumnDescriptor)) :=
  match acc with
  | .error e => .error e
  | .ok schema =>
    let colType := jsAt r.values 19
    if colType ≠ SqlVal.int 1 ∧ colType ≠ SqlVal.int 2 then .ok schema
    else
      match mapGetNum tables (jsAt r.values 1) with
      | none => .ok schema
      | some nameVal =>
        match nameVal with
        | .text tname =>
          if isInternalTableName tname then .ok schema
          else
            match mapGetNum colStorage (jsAt r.values 18) with
            | none => .ok schema
            | some cs =>
              let idfFile : Option SqlVal :=
                match mapGet colPart (jsAt r.values 18) with
                | none => none
                | some v => if v = .null then none else mapGetNum storageFiles v
              match idfFile with
              | none => .ok schema
              | some f =>
                if ¬ jsTruthySql f then .ok schema
                else
                  let dictInfo : Option SqlVal × SqlVal × SqlVal × Bool :=
                    if cs.dictStorageId ≠ .null then
                      match mapGetNum dictStorage cs.dictStorageId with
                      | some ds =>
                        (if ds.storageFileId ≠ .null then
                            mapGetNum storageFiles ds.storageFileId
                          else none,
                          jsOrSql ds.baseId (.int 0), jsOrSql ds.magnitude (.int 1),
                          jsTruthySql ds.isNullable)
                      | none => (none, .int 0, .int 1, false)
                    else (none, .int 0, .int 1, false)
                  let hidxFile : Option SqlVal :=
                    match mapGet attrH (SqlVal.int (r.rowid : Int)) with
                    | none => none
                    | some ahsId =>
                      if ahsId = .null then none
                      else
                        match mapGetNum attrHS ahsId with
                        | none => none
                        | some sfId =>
                          if sfId = .null then none
                          else mapGetNum storageFiles sfId
                  .ok (schemaAdd schema tname
                    (ColumnDescriptor.mk (jsAt r.values 2) f dictInfo.1 hidxFile
                      (jsAt r.values 4) dictInfo.2.1 dictInfo.2.2.1 dictInfo.2.2.2
                      cs.cardinality))
        | _ => .error ()

/-- `buildSchemaFromSQLite(db)`: build the joined lookup maps, then fold
over the `Column` rows. -/
def buildSchemaFromSQLite (getRows : String → List SqlRow) :
    Except Unit (List (List Nat × List ColumnDescriptor)) :=
  (getRows "Column").foldl
    (buildSchemaStep (tableNameMap (getRows "Table"))
      (storageFileMap (getRows "StorageFile"))
      (colStorageMap (getRows "ColumnStorage"))
      (dictStorageMap (getRows "DictionaryStorage"))
      (colPartStorageMap (getRows "ColumnPartitionStorage"))
      (attrHierMap (getRows "AttributeHierarchy"))
      (attrHierStorageMap (getRows "AttributeHierarchyStorage")))
    (.ok [])

/-- Lexicographic comparison of UTF-16 code-unit sequences: the default
`Array.prototype.sort()` string order of `parsePbixDataModel`. -/
def unitsLe : List Nat → List Nat → Bool
  | [], _ => true
  | _ :: _, [] => false
  | a :: as, b :: bs => if a < b then true else if b < a then false else unitsLe as bs

/-- `Array.from(schema.keys()).sort()` of `parsePbixDataModel`. -/
def tableNamesOfSchema (schema : List (List Nat × List ColumnDescriptor)) :
    List (List Nat) :=
  jsSort unitsLe (schema.map (·.1))

/-- An emitted column descriptor originates from a `Column` row of type 1
or 2 whose `ColumnStorageID` resolves through `ColumnPartitionStorage` and
`StorageFile` to its IDF filename. -/
def columnOriginates (colRows : List SqlRow) (colPart : List (SqlVal × SqlVal))
    (storageFiles : List (Nat × SqlVal)) (c : ColumnDescriptor) : Prop :=
  ∃ r ∈ colRows,
    (jsAt r.values 19 = .int 1 ∨ jsAt r.values 19 = .int 2) ∧
    c.name = jsAt r.values 2 ∧
    ∃ sfId, mapGet colPart (jsAt r.values 18) = some sfId ∧ sfId ≠ SqlVal.null ∧
      mapGetNum storageFiles sfId = some c.idf

/-- The filter invariant of the built schema: no internal table name, and
every column truthy-IDF'd and originating from a type-1/2 `Column` row. -/
def schemaFiltered (colRows : List SqlRow) (colPart : List (SqlVal × SqlVal))
    (storageFiles : List (Nat × SqlVal))
    (schema : List (List Nat × List ColumnDescriptor)) : Prop :=
  ∀ p ∈ schema, isInternalTableName p.1 = false ∧
    ∀ c ∈ p.2, jsTruthySql c.idf = true ∧
      columnOriginates colRows colPart storageFiles c

theorem schemaAdd_filtered {colRows : List SqlRow} {colPart : List (SqlVal × SqlVal)}
    {storageFiles : List (Nat × SqlVal)} {tname : List Nat} {c : ColumnDescriptor}
    (ht : isInternalTableName tname = false)
    (hc : jsTruthySql c.idf = true ∧ columnOriginates colRows colPart storageFiles c) :
    ∀ schema, schemaFiltered colRows colPart storageFiles schema →
      schemaFiltered colRows colPart storageFiles (schemaAdd schema tname c) := by
  intro schema
  induction schema with
  | nil =>
    intro _ p hp
    simp only [schemaAdd, List.mem_singleton] at hp
    subst hp
    refine ⟨ht, ?_⟩
    intro x hx
    simp only [List.mem_singleton] at hx
    subst hx
    exact hc
  | cons q rest ih =>
    intro hs
    obtain ⟨k, cols⟩ := q
    intro p hp
    simp only [schemaAdd] at hp
    by_cases hk : k = tname
    · rw [if_pos hk] at hp
      rcases List.mem_cons.mp hp with h1 | h1
      · subst h1
        refine ⟨hk ▸ ht, ?_⟩
        intro x hx
        rcases List.mem_append.mp hx with h2 | h2
        · exact (hs (k, cols) (List.mem_cons_self _ _)).2 x h2
        · simp only [List.mem_singleton] at h2
          subst h2
          exact hc
      · exact hs p (List.mem_cons_of_mem _ h1)
    · rw [if_neg hk] at hp
      rcases List.mem_cons.mp hp with h1 | h1
      · subst h1
        exact hs _ (List.mem_cons_self _ _)
      · exact ih (fun q hq => hs q (List.mem_cons_of_mem _ hq)) p h1

theorem buildSchemaStep_filtered {tables storageFiles colStorage dictStorage colPart attrH attrHS}
    {colRows : List SqlRow} {r : SqlRow} (hr : r ∈ colRows)
    {acc : Except Unit (List (List Nat × List ColumnDescriptor))}
    (hacc : ∀ s0, acc = .ok s0 → schemaFiltered colRows colPart storageFiles s0) :
    ∀ s0,
      buildSchemaStep tables storageFiles colStorage dictStorage colPart attrH attrHS acc r =
          .ok s0 →
        schemaFiltered colRows colPart storageFiles s0 := by
  intro s0 h
  unfold buildSchemaStep at h
  cases acc with
  | error e => exact absurd h (by simp)
  | ok schema =>
    have hs : schemaFiltered colRows colPart storageFiles schema := hacc schema rfl
    simp only at h
    split at h
    · exact (Except.ok.inj h) ▸ hs
    next htype =>
      split at h
      · exact (Except.ok.inj h) ▸ hs
      next nameVal _ =>
        split at h
        next tname =>
          split at h
          · exact (Except.ok.inj h) ▸ hs
          next hinternal =>
            split at h
            · exact (Except.ok.inj h) ▸ hs
            next cs _ =>
              split at h
              · exact (Except.ok.inj h) ▸ hs
              next f hf =>
                split at h
                · exact (Except.ok.inj h) ▸ hs
                next htruthy =>
                  rw [← Except.ok.inj h]
                  apply schemaAdd_filtered (by simpa using hinternal) ?_ schema hs
                  constructor
                  · simpa using htruthy
                  · refine ⟨r, hr, ?_, rfl, ?_⟩
                    · rcases Decidable.em (jsAt r.values 19 = SqlVal.int 1) with h1 | h1
                      · exact Or.inl h1
                      · right
                        by_contra h2
                        exact htype ⟨h1, h2⟩
                    · cases hcp : mapGet colPart (jsAt r.values 18) with
                      | none =>
                        rw [hcp] at hf
                        exact absurd hf (by simp)
                      | some v =>
                        rw [hcp] at hf
                        change (if v = SqlVal.null then none
                          else mapGetNum storageFiles v) = some f at hf
                        rcases Decidable.em (v = SqlVal.null) with hv | hv
                        · rw [if_pos hv] at hf
                          exact absurd hf (by simp)
                        · rw [if_neg hv] at hf
                          exact ⟨v, rfl, hv, hf⟩
        next hne =>
          exact absurd h (by simp)

theorem buildSchema_foldl_filtered {tables storageFiles colStorage dictStorage colPart attrH attrHS}
    {colRows : List SqlRow} :
    ∀ (rows : List SqlRow)
      (acc : Except Unit (List (List Nat × List ColumnDescriptor))),
      (∀ r ∈ rows, r ∈ colRows) →
      (∀ s0, acc = .ok s0 → schemaFiltered colRows colPart storageFiles s0) →
      ∀ s,
        rows.foldl
            (buildSchemaStep tables storageFiles colStorage dictStorage colPart attrH attrHS)
            acc = .ok s →
          schemaFiltered colRows colPart storageFiles s := by
  intro rows
  induction rows with
  | nil => intro acc _ hacc s h; exact hacc s h
  | cons r rest ih =>
    intro acc hmem hacc s h
    simp only [List.foldl_cons] at h
    exact ih _ (fun x hx => hmem x (List.mem_cons_of_mem _ hx))
      (buildSchemaStep_filtered (hmem r (List.mem_cons_self _ _)) hacc) s h

theorem mem_jsSortInsert {α : Type} (le : α → α → Bool) (x y : α) :
    ∀ l : List α, x ∈ jsSortInsert le y l ↔ x = y ∨ x ∈ l := by
  intro l
  induction l with
  | nil => simp [jsSortInsert]
  | cons z zs ih =>
    simp only [jsSortInsert]
    split
    · rw [List.mem_cons, ih, List.mem_cons]
      tauto
    · exact List.mem_cons

theorem mem_jsSort {α : Type} (le : α → α → Bool) (x : α) :
    ∀ l : List α, x ∈ jsSort le l ↔ x ∈ l := by
  intro l
  induction l with
  | nil => simp [jsSort]
  | cons z zs ih =>
    simp only [jsSort, List.foldr_cons] at ih ⊢
    rw [mem_jsSortInsert, ih, List.mem_cons]

/-- **C7.**  Every table of a successfully built column schema has a
non-internal name (none of the five prefixes), every emitted column has a
truthy IDF filename resolved through the storage tables from a `Column`
row of type 1 or 2, and the sorted `tableNames` list contains no internal
name either. -/
theorem buildSchemaFromSQLite_filtered (getRows : String → List SqlRow)
    (s : List (List Nat × List ColumnDescriptor))
    (h : buildSchemaFromSQLite getRows = .ok s) :
    (∀ p ∈ s, isInternalTableName p.1 = false ∧
        ∀ c ∈ p.2, jsTruthySql c.idf = true ∧
          columnOriginates (getRows "Column")
            (colPartStorageMap (getRows "ColumnPartitionStorage"))
            (storageFileMap (getRows "StorageFile")) c) ∧
      ∀ n ∈ tableNamesOfSchema s, isInternalTableName n = false := by
  have hmain : schemaFiltered (getRows "Column")
      (colPartStorageMap (getRows "ColumnPartitionStorage"))
      (storageFileMap (getRows "StorageFile")) s := by
    refine buildSchema_foldl_filtered (getRows "Column") (.ok []) (fun r hr => hr) ?_ s h
    intro s0 h0
    rw [← Except.ok.inj h0]
    intro p hp
    exact absurd hp (List.not_mem_nil p)
  refine ⟨hmain, ?_⟩
  intro n hn
  rw [tableNamesOfSchema, mem_jsSort] at hn
  obtain ⟨p, hp, hpn⟩ := List.mem_map.mp hn
  exact hpn ▸ (hmain p hp).1

/-- Concrete metadata rows: one user table `Sales` with one type-1 column
`Amount` whose storage chain resolves to `A.idf`. -/
def demoGetRows : String → List SqlRow := fun n =>
  if n = "Table" then
    [SqlRow.mk 1 [.null, .int 1, .text (strUnits "Sales")]]
  else if n = "Column" then
    [SqlRow.mk 10 [.null, .int 1, .text (strUnits "Amount"), .null, .int 6,
      .null, .null, .null, .null, .null, .null, .null, .null, .null, .null,
      .null, .null, .null, .int 50, .int 1]]
  else if n = "ColumnStorage" then
    [SqlRow.mk 50 [.null, .null, .null, .null, .null, .null, .null, .null,
      .null, .null, .null, .int 3]]
  else if n = "ColumnPartitionStorage" then
    [SqlRow.mk 60 [.null, .int 50, .null, .null, .null, .null, .int 70]]
  else if n = "StorageFile" then
    [SqlRow.mk 70 [.null, .null, .null, .null, .text (strUnits "A.idf")]]
  else []

/-- The descriptor `buildSchemaFromSQLite` produces for `demoGetRows`. -/
def demoSchemaCol : ColumnDescriptor :=
  ColumnDescriptor.mk (.text (strUnits "Amount")) (.text (strUnits "A.idf")) none none
    (.int 6) (.int 0) (.int 1) false (.int 3)

/-- Witness for C7 at the concrete metadata rows. -/
theorem buildSchemaFromSQLite_filtered_witness :
    buildSchemaFromSQLite demoGetRows = .ok [(strUnits "Sales", [demoSchemaCol])] ∧
      isInternalTableName (strUnits "Sales") = false ∧
      jsTruthySql demoSchemaCol.idf = true := by
  have hok : buildSchemaFromSQLite demoGetRows = .ok [(strUnits "Sales", [demoSchemaCol])] := by
    rfl
  have H := buildSchemaFromSQLite_filtered demoGetRows _ hok
  exact ⟨hok, (H.1 (strUnits "Sales", [demoSchemaCol]) (by decide)).1,
    ((H.1 (strUnits "Sales", [demoSchemaCol]) (by decide)).2 demoSchemaCol (by decide)).1⟩

/-! ## Column extraction and the table facade (`_extractColumn`,
`extractTableData`) -/

/-- Outcome of `_extractColumn`: an exception escaping the function, the
`null` return (column skipped), or the decoded values. -/
inductive ExtractResult where
  | thrown
  | nullResult
  | values (vs : List ColVal)
  deriving DecidableEq

/-- String coercion of a record value used as a filename
(`col.idf + 'meta'`, `fileCache.get(col.idf)`).  Strings coerce to
themselves and `null` to `"null"`; the decimal rendering of numbers is not
modelled (no claim exercises a non-string filename). -/
def jsValUnits : SqlVal → List Nat
  | .text u => u
  | .null => strUnits "null"
  | _ => strUnits "[coerced]"

/-- `fileCache.get(name)` for the pre-extracted `Map<filename, bytes>`. -/
def cacheGet (cache : List (List Nat × List Nat)) (key : List Nat) : Option (List Nat) :=
  mapGet cache key

/-- `dict.get(idx)` with the (number-keyed) dictionary map and an index
produced by the IDF decoder. -/
def dictGet (d : List (Nat × ColVal)) (idx : Int) : Option ColVal :=
  (d.find? (fun p => decide ((p.1 : Int) = idx))).map (·.2)

/-- Numeric view of a record value for the affine arithmetic of the
hierarchy-index branch (`(idx + col.baseId) / col.magnitude`).  Only
numbers are modelled; other values would coerce via `ToNumber`
(not exercised by any claim). -/
def qOfSql : SqlVal → Option ℚ
  | .int v => some (v : ℚ)
  | _ => none

/-- `(idx + col.baseId) / col.magnitude` as a column value.  Division is
exact rational division; the schema builder guarantees a truthy
magnitude, so the JavaScript `Infinity` of a zero divisor is never
produced there. -/
def affineValue (idx : Int) (baseId magnitude : SqlVal) : ColVal :=
  match qOfSql baseId, qOfSql magnitude with
  | some b, some m => .num (((idx : ℚ) + b) / m)
  | _, _ => .nan

/-- `_extractColumn(col, fileCache)`.  The `try` around the `.idfmeta`
read turns its exceptions into the `null` return; the `readIdf` call sits
outside every `try`, so its exception escapes (`.thrown`).  A failing
dictionary read falls back to the raw indices. -/
def _extractColumn (col : ColumnDescriptor) (fileCache : List (List Nat × List Nat)) :
    ExtractResult :=
  match cacheGet fileCache (jsValUnits col.idf ++ strUnits "meta") with
  | none => .nullResult
  | some metaBuf =>
    match readIdfMeta metaBuf with
    | none => .nullResult
    | some meta =>
      match cacheGet fileCache (jsValUnits col.idf) with
      | none => .nullResult
      | some idfBuf =>
        match readIdf idfBuf with
        | none => .thrown
        | some idfData =>
          let indices := decodeRleBitPackedHybrid idfData meta
          if optTruthy col.dictionary then
            match cacheGet fileCache (jsValUnits (col.dictionary.getD .null)) with
            | none => .values (indices.map fun i => ColVal.num (i : ℚ))
            | some dictBuf =>
              match readDictionary dictBuf meta.minDataId with
              | none => .values (indices.map fun i => ColVal.num (i : ℚ))
              | some dict =>
                .values (indices.map fun idx =>
                  match dictGet dict idx with
                  | some v => convertColumnValue v col.dataType
                  | none => ColVal.null)
          else if optTruthy col.hidx then
            .values (indices.map fun idx =>
              convertColumnValue (affineValue idx col.baseId col.magnitude) col.dataType)
          else .values (indices.map fun i => ColVal.num (i : ℚ))

/-- The columnar result of `extractTableData`. -/
structure TableData where
  columns : List SqlVal
  columnData : List (List ColVal)
  rowCount : Nat
  deriving DecidableEq

/-- `extractTableData(tableName, schema, fileCache)`: per-column loop
keeping the successfully decoded columns in schema order,
`rowCount = reduce(max, 0)` over the surviving column lengths.  A missing
table or an escaping per-column exception throws (`.error`). -/
def extractTableData (tableName : List Nat)
    (schema : List (List Nat × List ColumnDescriptor))
    (fileCache : List (List Nat × List Nat)) : Except Unit TableData :=
  match mapGet schema tableName with
  | none => .error ()
  | some tcols =>
    (tcols.foldl
      (fun (acc : Except Unit (List SqlVal × List (List ColVal))) col =>
        match acc with
        | .error e => .error e
        | .ok r =>
          match _extractColumn col fileCache with
          | .thrown => .error ()
          | .nullResult => .ok r
          | .values vs => .ok (r.1 ++ [col.name], r.2 ++ [vs]))
      (.ok ([], []))).map fun r =>
      TableData.mk r.1 r.2 (r.2.foldl (fun m c => max m c.length) 0)

/-- A valid 153-byte `.idfmeta` buffer, all fields zero (`minDataId 0`,
`countBitPacked 0`, `bitWidth 36`, `rowCount 0`). -/
def demoMetaBytes : List Nat := List.replicate 153 0

/-- An `.idf` buffer with one primary entry `{dataValue 3, repeatValue 2}`
and an empty sub-segment. -/
def demoIdfBytes : List Nat :=
  [1, 0, 0, 0, 0, 0, 0, 0, 3, 0, 0, 0, 2, 0, 0, 0, 0, 0, 0, 0, 0, 0, 0, 0]

/-- A descriptor with neither dictionary nor hierarchy index, but a
non-trivial `baseId`. -/
def demoAffineCol : ColumnDescriptor :=
  ColumnDescriptor.mk (.text (strUnits "A")) (.text (strUnits "c.idf")) none none
    (.int 6) (.int 1) (.int 1) false (.int 0)

/-- The file cache holding the two demonstration files. -/
def demoAffineCache : List (List Nat × List Nat) :=
  [(strUnits "c.idfmeta", demoMetaBytes), (strUnits "c.idf", demoIdfBytes)]

set_option maxRecDepth 8000 in
/-- **C4** (counterexample).  For a column with no dictionary file (and no
hierarchy index) the code returns the raw dictionary indices: the decoded
value is `3`, not the claimed
`convertColumnValue((3 + baseId)/magnitude) = 4`. -/
theorem extractColumn_no_dict_raw_indices :
    _extractColumn demoAffineCol demoAffineCache = .values [.num 3, .num 3] ∧
      demoAffineCol.dictionary = none ∧
      convertColumnValue (.num ((3 + 1) / 1)) demoAffineCol.dataType = .num 4 ∧
      ColVal.num 3 ≠ ColVal.num 4 := by
  refine ⟨by decide, rfl, by norm_num [convertColumnValue, demoAffineCol], by simp⟩

/-- **C4** (amended).  When the column has no dictionary but a truthy
hierarchy-index file, every decoded output value is the value converter
applied to `(idx + baseId) / magnitude` over the IDF decoder's indices. -/
theorem extractColumn_hidx_affine (col : ColumnDescriptor)
    (cache : List (List Nat × List Nat)) (metaBuf : List Nat) (meta : IdfMeta)
    (idfBuf : List Nat) (idfData : IdfData) (b m : Int)
    (hdict : col.dictionary = none)
    (hhidx : optTruthy col.hidx = true)
    (hb : col.baseId = .int b) (hm : col.magnitude = .int m)
    (h1 : cacheGet cache (jsValUnits col.idf ++ strUnits "meta") = some metaBuf)
    (h2 : readIdfMeta metaBuf = some meta)
    (h3 : cacheGet cache (jsValUnits col.idf) = some idfBuf)
    (h4 : readIdf idfBuf = some idfData) :
    _extractColumn col cache = .values
      ((decodeRleBitPackedHybrid idfData meta).map fun (idx : Int) =>
        convertColumnValue (.num (((idx : ℚ) + (b : ℚ)) / (m : ℚ))) col.dataType) := by
  have ht1 : optTruthy (none : Option SqlVal) = false := rfl
  simp only [_extractColumn, h1, h2, h3, h4, hdict, ht1, hhidx, affineValue,
    qOfSql, hb, hm, Bool.false_eq_true, if_false, if_true]

/-- A descriptor like `demoAffineCol` but with a hierarchy-index file. -/
def demoHidxCol : ColumnDescriptor :=
  ColumnDescriptor.mk (.text (strUnits "A")) (.text (strUnits "c.idf")) none
    (some (.text (strUnits "c.hidx"))) (.int 6) (.int 1) (.int 1) false (.int 0)

set_option maxRecDepth 8000 in
/-- Witness for the amended C4: with the hierarchy index present, both
decoded values are `(3 + 1) / 1 = 4`. -/
theorem extractColumn_hidx_affine_witness :
    _extractColumn demoHidxCol demoAffineCache = .values [.num 4, .num 4] := by
  have h := extractColumn_hidx_affine demoHidxCol demoAffineCache demoMetaBytes
    (IdfMeta.mk 0 0 36 0) demoIdfBytes (IdfData.mk [IdfEntry.mk 3 2] []) 1 1
    rfl (by decide) rfl rfl (by decide) (by decide) (by decide) (by decide)
  rw [h]
  norm_num [demoHidxCol, decodeRleBitPackedHybrid, bitPackedValues, rlePrimary,
    convertColumnValue, List.replicate]

set_option maxRecDepth 8000 in
/-- **C5** (evidence of the code bug).  A table whose only column has a
valid `.idfmeta` but a malformed (empty) `.idf` file: the `readIdf`
exception escapes `_extractColumn` (whose documentation promises "null on
failure") and aborts `extractTableData`, instead of the column being
omitted. -/
theorem extractTableData_thrown_on_malformed_idf :
    _extractColumn demoAffineCol
        [(strUnits "c.idfmeta", demoMetaBytes), (strUnits "c.idf", [])] = .thrown ∧
      extractTableData (strUnits "T")
          [(strUnits "T", [demoAffineCol])]
          [(strUnits "c.idfmeta", demoMetaBytes), (strUnits "c.idf", [])] = .error () := by
  exact ⟨by decide, by rfl⟩

end VertiPaq
